import Mathlib

/-!
# Verification of the Razor-IFC job orchestration engine

A shallow embedding of the job orchestration code in
`src/ifc_splitter/presentation/api/jobs.py` (class `JobManager`, the module
level task wrapper `process_file_task`, and the metadata snapshot logic),
together with theorems settling the specification claims about it.

The job table (`self.jobs : Dict[str, Job]`) is modelled as an insertion
ordered association list, matching Python dict semantics (`dictGet`,
`dictSet`).  Ambient effects that the Python code obtains from the runtime
(fresh UUIDs, the wall clock, the outcome of the dispatched transformation,
the result the completion callback observes) are passed as explicit
parameters.  Persistence (`_save_jobs_metadata`) is modelled at two levels:
in the main model the snapshot content is the serialized table itself plus a
counter of save calls; a separate byte-level model (`save_metadata_disk`)
captures the truncate-then-write behaviour of `open(file, 'w')` followed by
`json.dump` for the atomicity claim.
-/

namespace RazorIFC

/-- `JobStatus` from jobs.py: `PENDING | PROCESSING | COMPLETED | FAILED`. -/
inductive JobStatus where
  | pending
  | processing
  | completed
  | failed
deriving DecidableEq, Repr

/-- The `Job` dataclass from jobs.py.  `created_at` (a `datetime` in the
source) is modelled as an integer timestamp in seconds, which is all the
orchestration code compares. -/
structure Job where
  id : String
  status : JobStatus
  input_path : String
  output_path : String
  error : Option String := none
  callback_url : Option String := none
  created_at : Int
deriving DecidableEq, Repr

/-- The in-memory job table `self.jobs : Dict[str, Job]`, as an insertion
ordered association list. -/
abbrev Table := List (String × Job)

/-- Python `dict.get(k)`: first (and, when keys are unique, only) binding. -/
def dictGet (t : Table) (k : String) : Option Job :=
  match t with
  | [] => none
  | (k', v) :: rest => if k' = k then some v else dictGet rest k

/-- Python `dict[k] = v`: replace the binding in place if the key is
present, otherwise append (dicts preserve insertion order). -/
def dictSet (t : Table) (k : String) (v : Job) : Table :=
  match t with
  | [] => [(k, v)]
  | (k', v') :: rest =>
      if k' = k then (k', v) :: rest else (k', v') :: dictSet rest k v

/-- Orchestrator state: the in-memory table, the snapshot the last
`_save_jobs_metadata` call wrote (serialization modelled as the table
itself), the number of save calls, the set of files existing on disk, and
the number of callback notifications attempted. -/
structure ManagerState where
  jobs : Table
  disk : Table
  saves : Nat
  files : List String
  notifications : Nat
deriving DecidableEq, Repr

/-- A fresh `JobManager` (empty table, nothing persisted yet). -/
def initialState : ManagerState :=
  { jobs := [], disk := [], saves := 0, files := [], notifications := 0 }

/-- `JobManager._save_jobs_metadata` at the level of the main model: the
snapshot becomes the full serialized table; the call counter advances.
(The source wraps the write in try/except and never raises; byte-level
failure behaviour is modelled separately by `save_metadata_disk`.) -/
def save_jobs_metadata (s : ManagerState) : ManagerState :=
  { s with disk := s.jobs, saves := s.saves + 1 }

/-- The `Job` literal built by `JobManager.create_job` for a fresh id. -/
def freshJob (upload_dir output_dir job_id : String)
    (callback_url : Option String) (now : Int) : Job :=
  { id := job_id
    status := JobStatus.pending
    input_path := upload_dir ++ "/" ++ job_id ++ ".ifc"
    output_path := output_dir ++ "/" ++ job_id ++ "_filtered.ifc"
    error := none
    callback_url := callback_url
    created_at := now }

/-- `JobManager.create_job`: insert a fresh `PENDING` record and persist.
The UUID and the clock reading are parameters. -/
def create_job (s : ManagerState) (upload_dir output_dir job_id : String)
    (callback_url : Option String) (now : Int) : ManagerState × Job :=
  let job := freshJob upload_dir output_dir job_id callback_url now
  (save_jobs_metadata { s with jobs := dictSet s.jobs job_id job }, job)

/-- Whether `self.executor.submit(...)` (plus `add_done_callback`) raises;
`raises msg` carries `str(e)`. -/
inductive DispatchResult where
  | ok
  | raises (msg : String)
deriving DecidableEq, Repr

/-- `JobManager.submit_processing`.  Missing id: `raise ValueError(...)`,
modelled as `Except.error`.  Otherwise: set `PROCESSING`, persist, then
dispatch; if dispatch raises, set `FAILED` with a prefixed message (the
source's `except` block does not call `_save_jobs_metadata` again). -/
def submit_processing (s : ManagerState) (job_id : String)
    (d : DispatchResult) : Except String ManagerState :=
  match dictGet s.jobs job_id with
  | none => Except.error ("Job " ++ job_id ++ " not found")
  | some job =>
      let job1 := { job with status := JobStatus.processing }
      let s1 := save_jobs_metadata { s with jobs := dictSet s.jobs job_id job1 }
      match d with
      | DispatchResult.ok => Except.ok s1
      | DispatchResult.raises msg =>
          let job2 := { job1 with
            status := JobStatus.failed
            error := some ("Failed to submit job: " ++ msg) }
          Except.ok { s1 with jobs := dictSet s1.jobs job_id job2 }

/-- What `future.result(timeout=...)` does inside `_on_job_complete`:
return normally, raise `FuturesTimeoutError`, raise `MemoryError`, or
raise some other exception carrying `str(e)`. -/
inductive WaitResult where
  | ok
  | timedOut
  | memError (msg : String)
  | raisesOther (msg : String)
deriving DecidableEq, Repr

/-- The fixed user-safe message both `process_file_task` and
`_on_job_complete` use for `MemoryError`. -/
def oomMessage : String := "Out of memory - file may be too large for this server"

/-- The `if job.callback_url:` guard at the end of `_on_job_complete`
(Python truthiness: `None` and the empty string both skip the
notification; `_notify_callback` is best-effort and does not touch the
job). -/
def maybeNotify (s : ManagerState) (cb : Option String) : ManagerState :=
  match cb with
  | none => s
  | some url =>
      if url = "" then s else { s with notifications := s.notifications + 1 }

/-- `JobManager._on_job_complete(job_id, future)`: on a missing id, log and
return (lines 140-143).  Otherwise classify the wait result, set the
terminal status/error, then (the `finally` block) persist and, if the job
has a truthy `callback_url`, attempt one notification. -/
def on_job_complete (s : ManagerState) (job_id : String)
    (job_timeout : Int) (w : WaitResult) : ManagerState :=
  match dictGet s.jobs job_id with
  | none => s
  | some job =>
      let job1 :=
        match w with
        | WaitResult.ok => { job with status := JobStatus.completed }
        | WaitResult.timedOut => { job with
            status := JobStatus.failed
            error := some ("Job timed out after " ++ toString job_timeout ++ " seconds") }
        | WaitResult.memError _ => { job with
            status := JobStatus.failed
            error := some oomMessage }
        | WaitResult.raisesOther msg => { job with
            status := JobStatus.failed
            error := some msg }
      maybeNotify (save_jobs_metadata { s with jobs := dictSet s.jobs job_id job1 })
        job1.callback_url

/-- What the dispatched transformation does, as seen by the stored future:
return normally, raise `MemoryError(msg)`, or raise another exception with
message `msg`. -/
inductive TaskOutcome where
  | ok
  | memError (msg : String)
  | raisesOther (msg : String)
deriving DecidableEq, Repr

/-- The exception mapping of the module-level `process_file_task` wrapper:
`MemoryError` is re-raised as `MemoryError(oomMessage)`; everything else is
re-raised unchanged. -/
def process_file_task (underlying : TaskOutcome) : TaskOutcome :=
  match underlying with
  | TaskOutcome.ok => TaskOutcome.ok
  | TaskOutcome.memError _ => TaskOutcome.memError oomMessage
  | TaskOutcome.raisesOther msg => TaskOutcome.raisesOther msg

/-- Behaviour of the future returned by `executor.submit`: either the task
eventually resolves with some outcome, or it never returns. -/
inductive FutureBehavior where
  | resolves (o : TaskOutcome)
  | neverResolves
deriving DecidableEq, Repr

/-- `future.result(timeout)` called on a future that is already done
returns (or re-raises) its stored outcome immediately; the timeout cannot
elapse, so `FuturesTimeoutError` is never raised. -/
def waitResultOfOutcome : TaskOutcome → WaitResult
  | TaskOutcome.ok => WaitResult.ok
  | TaskOutcome.memError m => WaitResult.memError m
  | TaskOutcome.raisesOther m => WaitResult.raisesOther m

/-- The completion path as wired by `submit_processing`:
`future.add_done_callback(lambda f: self._on_job_complete(job_id, f))`
invokes the hook only once the future resolves.  If the underlying call
never returns, the future never becomes done and the hook is never invoked
(state unchanged); when it does resolve, the hook's
`future.result(timeout=self.job_timeout)` returns the stored outcome at
once, so the hook observes `waitResultOfOutcome`, never a timeout. -/
def driveCompletion (s : ManagerState) (job_id : String)
    (job_timeout : Int) (fb : FutureBehavior) : ManagerState :=
  match fb with
  | FutureBehavior.resolves o =>
      on_job_complete s job_id job_timeout (waitResultOfOutcome o)
  | FutureBehavior.neverResolves => s

/-- `JobManager.cleanup_old_jobs(max_compound_seconds)`: compute the
threshold, collect jobs strictly older, delete their files (best-effort),
remove the records, and persist once if anything was removed. -/
def cleanup_old_jobs (s : ManagerState) (now : Int)
    (max_compound_seconds : Int) : ManagerState :=
  let threshold := now - max_compound_seconds
  let jobs_to_remove := (s.jobs.filter
    (fun p => decide (p.2.created_at < threshold))).map (fun p => p.1)
  let files1 := s.files.filter (fun f =>
    !(s.jobs.any (fun p =>
      decide (p.2.created_at < threshold) &&
        (p.2.input_path == f || p.2.output_path == f))))
  let remaining := s.jobs.filter
    (fun p => !(decide (p.2.created_at < threshold)))
  let s1 := { s with jobs := remaining, files := files1 }
  if jobs_to_remove.isEmpty then s1 else save_jobs_metadata s1

/-! ## Metadata snapshot loading (`_load_jobs_metadata`)

The snapshot file, as the loader sees it: absent, a file whose
`json.load` raises, or a parsed list of records each of which either
reconstructs to a `Job` or raises during reconstruction (missing key,
unknown status string, bad timestamp). -/

/-- The on-disk snapshot as classified by `_load_jobs_metadata`. -/
inductive SnapshotFile where
  | absent
  | unparseable
  | records (rs : List (Option Job))
deriving DecidableEq, Repr

/-- The reconstruction loop of `_load_jobs_metadata`: insert jobs in order
into `self.jobs` until the first record whose reconstruction raises; the
surrounding `except` then swallows the exception, keeping what was already
inserted. -/
def loadLoop (acc : Table) : List (Option Job) → Table
  | [] => acc
  | none :: _ => acc
  | some j :: rest => loadLoop (dictSet acc j.id j) rest

/-- `JobManager._load_jobs_metadata`, run from `__init__` where
`self.jobs` starts empty: an absent file is not an error (empty table); a
file whose parse raises leaves the table empty; a parsed record list is
loaded up to the first bad record.  Total: the loader never raises. -/
def load_jobs_metadata (f : SnapshotFile) : Table :=
  match f with
  | SnapshotFile.absent => []
  | SnapshotFile.unparseable => []
  | SnapshotFile.records rs => loadLoop [] rs

/-! ## Byte-level model of `_save_jobs_metadata`'s disk write

`open(self.metadata_file, 'w')` truncates the file, then `json.dump`
writes the serialized bytes incrementally.  We model the disk content as a
character list and the write as a truncate step followed by one append
step per character; a crash after `k` steps leaves the prefix written so
far. -/

/-- The write steps of `_save_jobs_metadata`'s file write: truncate, then
append the serialized data one character at a time. -/
def writeTruncateSteps (data : List Char) : List (List Char → List Char) :=
  (fun _ => []) :: data.map (fun c => fun d => d ++ [c])

/-- Run the first `k` write steps over an initial disk content. -/
def runWriteSteps (disk : List Char) (steps : List (List Char → List Char))
    (k : Nat) : List Char :=
  (steps.take k).foldl (fun d f => f d) disk

/-- Disk content after `_save_jobs_metadata` performs `failAfter` of its
write steps over a previous snapshot `old` (a completed write performs all
`data.length + 1` steps). -/
def save_metadata_disk (old data : List Char) (failAfter : Nat) : List Char :=
  runWriteSteps old (writeTruncateSteps data) failAfter

/-- Modelled from the spec: the write-then-rename discipline of §4.3's
`save(allJobs)` contract ("implementers should write-then-rename"), which
is absent from the repository's `_save_jobs_metadata`.  Steps write the
data into a temporary file (disk snapshot untouched) and a final rename
step atomically replaces the snapshot with the temporary file. -/
def atomicWriteSteps (data : List Char) :
    List (List Char × List Char → List Char × List Char) :=
  data.map (fun c => fun p => (p.1, p.2 ++ [c])) ++ [fun p => (p.2, p.2)]

/-- Disk content after a write-then-rename save performs `failAfter` of
its steps (first component: snapshot file; second: temporary file). -/
def save_metadata_atomic (old data : List Char) (failAfter : Nat) : List Char :=
  (((atomicWriteSteps data).take failAfter).foldl
    (fun p f => f p) (old, [])).1

/-! ## Operation traces

A trace of orchestrator operations, used for the table-wide invariant
claims.  Each constructor packages the ambient inputs of the corresponding
`JobManager` method. -/

/-- One orchestrator operation. -/
inductive Op where
  | create (job_id : String) (callback_url : Option String) (now : Int)
  | submit (job_id : String) (d : DispatchResult)
  | complete (job_id : String) (job_timeout : Int) (fb : FutureBehavior)
  | sweep (now : Int) (max_compound_seconds : Int)
deriving DecidableEq, Repr

/-- Apply one operation.  A `submit` on an unknown id raises in the source
before mutating anything, so the state is unchanged. -/
def applyOp (s : ManagerState) (op : Op) : ManagerState :=
  match op with
  | Op.create job_id cb now => (create_job s "uploads" "outputs" job_id cb now).1
  | Op.submit job_id d =>
      match submit_processing s job_id d with
      | Except.ok s' => s'
      | Except.error _ => s
  | Op.complete job_id t fb => driveCompletion s job_id t fb
  | Op.sweep now maxAge => cleanup_old_jobs s now maxAge

/-- Apply a trace of operations in order. -/
def applyTrace (s : ManagerState) (ops : List Op) : ManagerState :=
  ops.foldl applyOp s

/-- The usage discipline the orchestration layer establishes: `create`
allocates a fresh UUID (never reuses a live id); `submit` targets a
`PENDING` job; a completion hook fires only for a job it finds in
`PROCESSING` (or no longer present at all, if the sweeper removed it). -/
def okOp (s : ManagerState) (op : Op) : Bool :=
  match op with
  | Op.create job_id _ _ => (dictGet s.jobs job_id).isNone
  | Op.submit job_id _ =>
      match dictGet s.jobs job_id with
      | some j => decide (j.status = JobStatus.pending)
      | none => false
  | Op.complete job_id _ _ =>
      match dictGet s.jobs job_id with
      | some j => decide (j.status = JobStatus.processing)
      | none => true
  | Op.sweep _ _ => true

/-- A trace every step of which respects the usage discipline. -/
def okTrace (s : ManagerState) : List Op → Bool
  | [] => true
  | op :: ops => okOp s op && okTrace (applyOp s op) ops

/-! ## Fine-grained interleaving model for concurrency

`jobs.py` takes no lock: `self.jobs` is a plain dict mutated from request
handlers and from executor worker threads.  Under CPython each individual
dict/attribute operation is atomic, but multi-statement read-then-write
sequences are not protected by anything.  We model each such atomic
operation as one `TStep` on the shared table and let threads interleave
arbitrarily, which is exactly what the lock-free source permits. -/

/-- One atomic table/record operation performed by the source while
handling a given job id. -/
inductive StepKind where
  | readJob
  | insertJob (j : Job)
  | writeStatus (st : JobStatus)
  | writeError (e : Option String)
deriving DecidableEq, Repr

/-- A step, tagged with the job id whose record it touches. -/
structure TStep where
  key : String
  kind : StepKind
deriving DecidableEq, Repr

/-- Effect of one atomic step on the shared table.  `readJob`
(`self.jobs.get(job_id)`) does not change the table; the write steps go
through the record stored at the step's key (in the source, through the
object reference the preceding read obtained — equivalent here because no
other thread replaces the binding of that key). -/
def applyStep (t : Table) (st : TStep) : Table :=
  match st.kind with
  | StepKind.readJob => t
  | StepKind.insertJob j => dictSet t st.key j
  | StepKind.writeStatus v =>
      match dictGet t st.key with
      | none => t
      | some j => dictSet t st.key { j with status := v }
  | StepKind.writeError e =>
      match dictGet t st.key with
      | none => t
      | some j => dictSet t st.key { j with error := e }

/-- Run a step sequence over a table. -/
def runSteps (steps : List TStep) (t : Table) : Table :=
  steps.foldl applyStep t

/-- The atomic steps of `create_job` followed by `submit_processing` with a
successful dispatch and the completion hook observing a normal return:
insert the fresh record; submit's `self.jobs.get`; `job.status =
PROCESSING`; the hook's `self.jobs.get`; `job.status = COMPLETED`. -/
def lifecycleOk (upload_dir output_dir job_id : String)
    (callback_url : Option String) (now : Int) : List TStep :=
  [ { key := job_id
      kind := StepKind.insertJob (freshJob upload_dir output_dir job_id callback_url now) }
  , { key := job_id, kind := StepKind.readJob }
  , { key := job_id, kind := StepKind.writeStatus JobStatus.processing }
  , { key := job_id, kind := StepKind.readJob }
  , { key := job_id, kind := StepKind.writeStatus JobStatus.completed } ]

/-- As `lifecycleOk`, but the transformation raises with message `msg`, so
the hook performs `job.status = FAILED` then `job.error = str(e)`. -/
def lifecycleFail (upload_dir output_dir job_id : String)
    (callback_url : Option String) (now : Int) (msg : String) : List TStep :=
  [ { key := job_id
      kind := StepKind.insertJob (freshJob upload_dir output_dir job_id callback_url now) }
  , { key := job_id, kind := StepKind.readJob }
  , { key := job_id, kind := StepKind.writeStatus JobStatus.processing }
  , { key := job_id, kind := StepKind.readJob }
  , { key := job_id, kind := StepKind.writeStatus JobStatus.failed }
  , { key := job_id, kind := StepKind.writeError (some msg) } ]

/-- `Interleave xs ys zs`: `zs` is an order-preserving interleaving of the
two threads' step sequences `xs` and `ys`.  Because the source holds no
lock, every interleaving is a possible execution. -/
inductive Interleave : List TStep → List TStep → List TStep → Prop
  | nil : Interleave [] [] []
  | left {x xs ys zs} : Interleave xs ys zs → Interleave (x :: xs) ys (x :: zs)
  | right {y xs ys zs} : Interleave xs ys zs → Interleave xs (y :: ys) (y :: zs)

/-- Key uniqueness of a table (holds for every table the orchestrator
builds, since `dictSet` replaces in place and `filter` only removes). -/
def keysNodup (t : Table) : Prop := (t.map (fun p => p.1)).Nodup

/-- Two tables are observationally equal when every lookup agrees (the
list representations may order absent-key insertions differently). -/
def tableEquiv (t1 t2 : Table) : Prop := ∀ x, dictGet t1 x = dictGet t2 x

/-- Every record's `error` is set exactly when its status is `FAILED`. -/
def errOk (t : Table) : Prop :=
  ∀ p ∈ t, (p.2.error ≠ none ↔ p.2.status = JobStatus.failed)

/-- The reflexive-transitive reachability of the specification's status
chain `PENDING → PROCESSING → {COMPLETED | FAILED}`. -/
def monotoneReach : JobStatus → JobStatus → Bool
  | JobStatus.pending, _ => true
  | JobStatus.processing, JobStatus.pending => false
  | JobStatus.processing, _ => true
  | JobStatus.completed, b => decide (b = JobStatus.completed)
  | JobStatus.failed, b => decide (b = JobStatus.failed)

/-- A concrete execution order of two concurrent submissions (jobs "a" and
"b", both succeeding): job b's thread performs its dict insert, record
read and `PROCESSING` write in between job a's `submit_processing` read of
its record and the corresponding `PROCESSING` write.  Nothing in the
lock-free source excludes this order. -/
def badInterleaving : List TStep :=
  [ { key := "a", kind := StepKind.insertJob (freshJob "u" "o" "a" none 0) }
  , { key := "a", kind := StepKind.readJob }
  , { key := "b", kind := StepKind.insertJob (freshJob "u" "o" "b" none 0) }
  , { key := "b", kind := StepKind.readJob }
  , { key := "b", kind := StepKind.writeStatus JobStatus.processing }
  , { key := "a", kind := StepKind.writeStatus JobStatus.processing }
  , { key := "a", kind := StepKind.readJob }
  , { key := "a", kind := StepKind.writeStatus JobStatus.completed }
  , { key := "b", kind := StepKind.readJob }
  , { key := "b", kind := StepKind.writeStatus JobStatus.completed } ]

/-! ## Dictionary lemmas -/

theorem dictGet_dictSet_same (t : Table) (k : String) (v : Job) :
    dictGet (dictSet t k v) k = some v := by
  induction t with
  | nil => simp [dictGet, dictSet]
  | cons p rest ih =>
      by_cases h : p.1 = k
      · simp [dictGet, dictSet, h]
      · simp [dictGet, dictSet, h, ih]

theorem dictGet_dictSet_ne (t : Table) {k k' : String} (v : Job)
    (h : k ≠ k') : dictGet (dictSet t k v) k' = dictGet t k' := by
  induction t with
  | nil => simp [dictGet, dictSet, h]
  | cons p rest ih =>
      obtain ⟨a, b⟩ := p
      by_cases hp : a = k
      · subst hp
        simp [dictGet, dictSet, h]
      · simp [dictGet, dictSet, hp, ih]

theorem dictSet_dictSet_same (t : Table) (k : String) (v w : Job) :
    dictSet (dictSet t k v) k w = dictSet t k w := by
  induction t with
  | nil => simp [dictSet]
  | cons p rest ih =>
      obtain ⟨a, b⟩ := p
      by_cases h : a = k
      · simp [dictSet, h]
      · simp [dictSet, h, ih]

theorem dictGet_dictSet (t : Table) (k x : String) (v : Job) :
    dictGet (dictSet t k v) x = if k = x then some v else dictGet t x := by
  by_cases h : k = x
  · subst h
    simp [dictGet_dictSet_same]
  · simp [h, dictGet_dictSet_ne t v h]

theorem dictGet_mem {t : Table} {k : String} {v : Job}
    (h : dictGet t k = some v) : (k, v) ∈ t := by
  induction t with
  | nil => simp [dictGet] at h
  | cons p rest ih =>
      obtain ⟨a, b⟩ := p
      by_cases hp : a = k
      · subst hp
        simp [dictGet] at h
        subst h
        exact List.mem_cons_self _ _
      · simp [dictGet, hp] at h
        exact List.mem_cons_of_mem _ (ih h)

theorem mem_dictSet {t : Table} {k : String} {v : Job} {p : String × Job}
    (h : p ∈ dictSet t k v) : p = (k, v) ∨ p ∈ t := by
  induction t with
  | nil => simp [dictSet] at h; simp [h]
  | cons q rest ih =>
      obtain ⟨a, b⟩ := q
      by_cases hq : a = k
      · subst hq
        simp [dictSet] at h
        rcases h with h | h
        · left; simp [h]
        · right; simp [h]
      · simp [dictSet, hq] at h
        rcases h with h | h
        · right; simp [h]
        · rcases ih h with h' | h'
          · left; exact h'
          · right; simp [h']

theorem keysNodup_filter {t : Table} (q : String × Job → Bool)
    (hnd : keysNodup t) : keysNodup (t.filter q) :=
  List.Nodup.sublist (List.Sublist.map _ (List.filter_sublist t)) hnd

theorem dictGet_filter {t : Table} {k : String} {v : Job}
    (q : String × Job → Bool) (hnd : keysNodup t)
    (h : dictGet (t.filter q) k = some v) : dictGet t k = some v := by
  induction t with
  | nil => simp [dictGet] at h
  | cons p rest ih =>
      obtain ⟨a, b⟩ := p
      have hnd' : keysNodup rest := by
        simp [keysNodup, List.nodup_cons] at hnd
        exact hnd.2
      have hkey : a ∉ rest.map (fun p => p.1) := by
        simp [keysNodup, List.nodup_cons] at hnd
        simpa using hnd.1
      by_cases hp : a = k
      · subst hp
        by_cases hq : q (a, b)
        · rw [List.filter_cons_of_pos hq] at h
          simp [dictGet] at h ⊢
          exact h
        · rw [List.filter_cons_of_neg (by simpa using hq)] at h
          have hmem := dictGet_mem (ih hnd' h)
          exact absurd (List.mem_map.mpr ⟨(a, v), hmem, rfl⟩) hkey
      · by_cases hq : q (a, b)
        · rw [List.filter_cons_of_pos hq] at h
          simp [dictGet, hp] at h ⊢
          exact ih hnd' h
        · rw [List.filter_cons_of_neg (by simpa using hq)] at h
          simp [dictGet, hp]
          exact ih hnd' h

/-! ## Interleaving lemmas

Steps of threads working on distinct job ids commute observationally, so
any interleaving of two jobs' lifecycles produces the same lookups as
running them one after the other. -/

theorem tableEquiv_refl (t : Table) : tableEquiv t t := fun _ => rfl

theorem tableEquiv_trans {t1 t2 t3 : Table} (h1 : tableEquiv t1 t2)
    (h2 : tableEquiv t2 t3) : tableEquiv t1 t3 :=
  fun x => (h1 x).trans (h2 x)

theorem dictGet_applyStep_ne (t : Table) (st : TStep) {x : String}
    (h : st.key ≠ x) : dictGet (applyStep t st) x = dictGet t x := by
  cases hk : st.kind with
  | readJob => simp [applyStep, hk]
  | insertJob j => simp [applyStep, hk, dictGet_dictSet_ne t j h]
  | writeStatus v =>
      simp only [applyStep, hk]
      cases dictGet t st.key with
      | none => rfl
      | some j => simp [dictGet_dictSet_ne t _ h]
  | writeError e =>
      simp only [applyStep, hk]
      cases dictGet t st.key with
      | none => rfl
      | some j => simp [dictGet_dictSet_ne t _ h]

theorem dictGet_applyStep_self {t1 t2 : Table} (st : TStep)
    (h : dictGet t1 st.key = dictGet t2 st.key) :
    dictGet (applyStep t1 st) st.key = dictGet (applyStep t2 st) st.key := by
  cases hk : st.kind with
  | readJob => simp [applyStep, hk, h]
  | insertJob j => simp [applyStep, hk, dictGet_dictSet_same]
  | writeStatus v =>
      simp only [applyStep, hk, ← h]
      cases dictGet t1 st.key with
      | none => exact h
      | some j => simp [dictGet_dictSet_same]
  | writeError e =>
      simp only [applyStep, hk, ← h]
      cases dictGet t1 st.key with
      | none => exact h
      | some j => simp [dictGet_dictSet_same]

theorem applyStep_congr {t1 t2 : Table} (h : tableEquiv t1 t2) (st : TStep) :
    tableEquiv (applyStep t1 st) (applyStep t2 st) := by
  intro x
  by_cases hx : st.key = x
  · subst hx
    exact dictGet_applyStep_self st (h _)
  · rw [dictGet_applyStep_ne t1 st hx, dictGet_applyStep_ne t2 st hx]
    exact h x

theorem applyStep_comm {t : Table} {a b : TStep} (h : a.key ≠ b.key) :
    tableEquiv (applyStep (applyStep t a) b) (applyStep (applyStep t b) a) := by
  intro x
  by_cases hxa : a.key = x
  · subst hxa
    rw [dictGet_applyStep_ne (applyStep t a) b (Ne.symm h)]
    exact dictGet_applyStep_self a (dictGet_applyStep_ne t b (Ne.symm h)).symm
  · by_cases hxb : b.key = x
    · subst hxb
      rw [dictGet_applyStep_ne (applyStep t b) a h]
      exact dictGet_applyStep_self b (dictGet_applyStep_ne t a h)
    · rw [dictGet_applyStep_ne _ b hxb, dictGet_applyStep_ne _ a hxa,
        dictGet_applyStep_ne _ a hxa, dictGet_applyStep_ne _ b hxb]

theorem runSteps_congr {t1 t2 : Table} (h : tableEquiv t1 t2)
    (l : List TStep) : tableEquiv (runSteps l t1) (runSteps l t2) := by
  induction l generalizing t1 t2 with
  | nil => exact h
  | cons s rest ih => exact ih (applyStep_congr h s)

theorem runSteps_commute_step {xs : List TStep} {a : String}
    (hxs : ∀ s ∈ xs, s.key = a) {y : TStep} (hy : y.key ≠ a) (t : Table) :
    tableEquiv (runSteps xs (applyStep t y)) (applyStep (runSteps xs t) y) := by
  induction xs generalizing t with
  | nil => exact tableEquiv_refl _
  | cons x rest ih =>
      have hxa : x.key = a := hxs x (List.mem_cons_self _ _)
      have hcomm : tableEquiv (applyStep (applyStep t y) x)
          (applyStep (applyStep t x) y) :=
        applyStep_comm (by rw [hxa]; exact hy)
      have h1 : tableEquiv (runSteps rest (applyStep (applyStep t y) x))
          (runSteps rest (applyStep (applyStep t x) y)) :=
        runSteps_congr hcomm rest
      have h2 := ih (fun s hs => hxs s (List.mem_cons_of_mem _ hs)) (applyStep t x)
      exact tableEquiv_trans h1 h2

theorem interleave_run {xs ys zs : List TStep} {a b : String}
    (hi : Interleave xs ys zs) (hxs : ∀ s ∈ xs, s.key = a)
    (hys : ∀ s ∈ ys, s.key = b) (hab : b ≠ a) (t : Table) :
    tableEquiv (runSteps zs t) (runSteps ys (runSteps xs t)) := by
  induction hi generalizing t with
  | nil => exact tableEquiv_refl _
  | @left x xs' ys' zs' _ ih =>
      exact ih (fun s hs => hxs s (List.mem_cons_of_mem _ hs)) hys (applyStep t x)
  | @right y xs' ys' zs' _ ih =>
      have hyb : y.key = b := hys y (List.mem_cons_self _ _)
      have h1 := ih hxs (fun s hs => hys s (List.mem_cons_of_mem _ hs)) (applyStep t y)
      have h2 : tableEquiv (runSteps xs' (applyStep t y))
          (applyStep (runSteps xs' t) y) :=
        runSteps_commute_step hxs (by rw [hyb]; exact hab) t
      exact tableEquiv_trans h1 (runSteps_congr h2 ys')

theorem runSteps_lifecycleOk (ud od job_id : String) (cb : Option String)
    (now : Int) (t : Table) :
    runSteps (lifecycleOk ud od job_id cb now) t =
      dictSet t job_id
        { freshJob ud od job_id cb now with status := JobStatus.completed } := by
  simp [lifecycleOk, runSteps, applyStep, dictGet_dictSet_same, dictSet_dictSet_same]

theorem runSteps_lifecycleFail (ud od job_id : String) (cb : Option String)
    (now : Int) (msg : String) (t : Table) :
    runSteps (lifecycleFail ud od job_id cb now msg) t =
      dictSet t job_id
        { freshJob ud od job_id cb now with
            status := JobStatus.failed, error := some msg } := by
  simp [lifecycleFail, runSteps, applyStep, dictGet_dictSet_same, dictSet_dictSet_same]

/-! ## The error/FAILED invariant -/

theorem maybeNotify_jobs (s : ManagerState) (cb : Option String) :
    (maybeNotify s cb).jobs = s.jobs := by
  cases cb with
  | none => rfl
  | some url =>
      by_cases h : url = "" <;> simp [maybeNotify, h]

theorem maybeNotify_disk (s : ManagerState) (cb : Option String) :
    (maybeNotify s cb).disk = s.disk := by
  cases cb with
  | none => rfl
  | some url =>
      by_cases h : url = "" <;> simp [maybeNotify, h]

theorem maybeNotify_saves (s : ManagerState) (cb : Option String) :
    (maybeNotify s cb).saves = s.saves := by
  cases cb with
  | none => rfl
  | some url =>
      by_cases h : url = "" <;> simp [maybeNotify, h]

theorem errOk_preserved {s : ManagerState} {op : Op}
    (hinv : errOk s.jobs) (hop : okOp s op = true) :
    errOk (applyOp s op).jobs := by
  cases op with
  | create job_id cb now =>
      intro p hp
      simp only [applyOp, create_job, save_jobs_metadata] at hp
      rcases mem_dictSet hp with h | h
      · subst h
        simp [freshJob]
      · exact hinv p h
  | submit job_id d =>
      simp only [okOp] at hop
      rcases hget : dictGet s.jobs job_id with _ | j
      · rw [hget] at hop
        simp at hop
      · rw [hget] at hop
        have hpend : j.status = JobStatus.pending := by simpa using hop
        have herr : j.error = none := by
          by_contra hne
          have := (hinv _ (dictGet_mem hget)).mp hne
          simp [hpend] at this
        intro p hp
        simp only [applyOp, submit_processing, hget, save_jobs_metadata] at hp
        cases d with
        | ok =>
            simp at hp
            rcases mem_dictSet hp with h | h
            · subst h
              simp [herr]
            · exact hinv p h
        | raises msg =>
            simp [dictSet_dictSet_same] at hp
            rcases mem_dictSet hp with h | h
            · subst h
              simp
            · exact hinv p h
  | complete job_id t fb =>
      simp only [okOp] at hop
      cases fb with
      | neverResolves =>
          simpa only [applyOp, driveCompletion] using hinv
      | resolves o =>
          rcases hget : dictGet s.jobs job_id with _ | j
          · simp only [applyOp, driveCompletion, on_job_complete, hget]
            exact hinv
          · rw [hget] at hop
            have hproc : j.status = JobStatus.processing := by simpa using hop
            have herr : j.error = none := by
              by_contra hne
              have := (hinv _ (dictGet_mem hget)).mp hne
              simp [hproc] at this
            intro p hp
            simp only [applyOp, driveCompletion, on_job_complete, hget,
              maybeNotify_jobs, save_jobs_metadata] at hp
            cases o with
            | ok =>
                simp only [waitResultOfOutcome] at hp
                rcases mem_dictSet hp with h | h
                · subst h
                  simp [herr]
                · exact hinv p h
            | memError m =>
                simp only [waitResultOfOutcome] at hp
                rcases mem_dictSet hp with h | h
                · subst h
                  simp
                · exact hinv p h
            | raisesOther m =>
                simp only [waitResultOfOutcome] at hp
                rcases mem_dictSet hp with h | h
                · subst h
                  simp
                · exact hinv p h
  | sweep now maxAge =>
      intro p hp
      simp only [applyOp, cleanup_old_jobs, save_jobs_metadata] at hp
      by_cases hrem : ((s.jobs.filter
          (fun p => decide (p.2.created_at < now - maxAge))).map (fun p => p.1)).isEmpty
      · simp only [hrem, if_pos] at hp
        exact hinv p (List.mem_of_mem_filter hp)
      · simp only [hrem, if_neg, Bool.false_eq_true, not_false_iff] at hp
        exact hinv p (List.mem_of_mem_filter hp)

theorem errOk_trace {s : ManagerState} (hinv : errOk s.jobs)
    (ops : List Op) (hok : okTrace s ops = true) :
    errOk (applyTrace s ops).jobs := by
  induction ops generalizing s with
  | nil => exact hinv
  | cons op rest ih =>
      simp only [okTrace, Bool.and_eq_true] at hok
      exact ih (errOk_preserved hinv hok.1) hok.2

/-! ## Monotone status transitions -/

theorem monotoneReach_terminal {a b : JobStatus}
    (h : monotoneReach a b = true)
    (ht : a = JobStatus.completed ∨ a = JobStatus.failed) : b = a := by
  cases a <;> cases b <;> simp_all [monotoneReach]

theorem monotoneReach_refl (a : JobStatus) : monotoneReach a a = true := by
  cases a <;> simp [monotoneReach]

/-! ## Loader and disk-write lemmas -/

theorem loadLoop_map_some (good : List Job) (acc : Table)
    (tail : List (Option Job)) :
    loadLoop acc (good.map some ++ tail) =
      loadLoop (good.foldl (fun a j => dictSet a j.id j) acc) tail := by
  induction good generalizing acc with
  | nil => simp
  | cons j rest ih => simp [loadLoop, ih]

theorem runWriteSteps_appends (data : List Char) (acc : List Char) :
    (data.map (fun c => fun d => d ++ [c])).foldl (fun d f => f d) acc =
      acc ++ data := by
  induction data generalizing acc with
  | nil => simp
  | cons c rest ih => simp [ih]

theorem foldl_tmpWrites (l : List Char) (p : List Char × List Char) :
    (l.map (fun c => fun q => (q.1, q.2 ++ [c]))).foldl (fun q f => f q) p =
      (p.1, p.2 ++ l) := by
  induction l generalizing p with
  | nil => simp
  | cons c rest ih => simp [ih]

theorem interleave_append (xs ys : List TStep) : Interleave xs ys (xs ++ ys) := by
  induction xs with
  | nil =>
      simp only [List.nil_append]
      induction ys with
      | nil => exact Interleave.nil
      | cons y rest ih => exact Interleave.right ih
  | cons x rest ih => exact Interleave.left ih

theorem cleanup_jobs_eq (s : ManagerState) (now m : Int) :
    (cleanup_old_jobs s now m).jobs =
      s.jobs.filter (fun p => !decide (p.2.created_at < now - m)) := by
  simp only [cleanup_old_jobs]
  split
  · rfl
  · rfl

theorem cleanup_files_eq (s : ManagerState) (now m : Int) :
    (cleanup_old_jobs s now m).files =
      s.files.filter (fun f => !(s.jobs.any (fun p =>
        decide (p.2.created_at < now - m) &&
          (p.2.input_path == f || p.2.output_path == f)))) := by
  simp only [cleanup_old_jobs]
  split
  · rfl
  · rfl

theorem cleanup_saves_eq (s : ManagerState) (now m : Int) :
    (cleanup_old_jobs s now m).saves =
      if ((s.jobs.filter (fun p =>
          decide (p.2.created_at < now - m))).map (fun p => p.1)).isEmpty
        then s.saves else s.saves + 1 := by
  simp only [cleanup_old_jobs]
  split
  · simp_all
  · simp_all [save_jobs_metadata]

/-! ## Claim theorems -/

/-- C10: if the completion hook fires for a job id that is no longer in
the table (e.g. removed by the sweeper while the transformation ran), it
returns at once: the table, the persisted snapshot, the save counter and
the notification counter are all untouched, regardless of what the removed
job's `callback_url` was. -/
theorem c10_hook_missing_job_noop (s : ManagerState) (job_id : String)
    (job_timeout : Int) (w : WaitResult)
    (h : dictGet s.jobs job_id = none) :
    on_job_complete s job_id job_timeout w = s := by
  simp [on_job_complete, h]

theorem c10_hook_missing_job_noop_witness :
    dictGet initialState.jobs "gone" = none ∧
      on_job_complete initialState "gone" 300 WaitResult.ok = initialState :=
  ⟨rfl, c10_hook_missing_job_noop initialState "gone" 300 WaitResult.ok rfl⟩

/-- C8: classification of a submitted job's outcome through
`process_file_task` and `_on_job_complete`: a normal return yields
`COMPLETED`; a `MemoryError` yields `FAILED` with the fixed user-safe
message, for every raw message (the raw text never reaches the record);
any other exception yields `FAILED` with its message verbatim. -/
theorem c8_outcome_classification (s : ManagerState) (job_id : String)
    (job_timeout : Int) (j : Job) (h : dictGet s.jobs job_id = some j) :
    (dictGet (driveCompletion s job_id job_timeout
        (FutureBehavior.resolves (process_file_task TaskOutcome.ok))).jobs job_id =
      some { j with status := JobStatus.completed }) ∧
    (∀ m, dictGet (driveCompletion s job_id job_timeout
        (FutureBehavior.resolves (process_file_task (TaskOutcome.memError m)))).jobs job_id =
      some { j with status := JobStatus.failed, error := some oomMessage }) ∧
    (∀ m, dictGet (driveCompletion s job_id job_timeout
        (FutureBehavior.resolves (process_file_task (TaskOutcome.raisesOther m)))).jobs job_id =
      some { j with status := JobStatus.failed, error := some m }) := by
  refine ⟨?_, fun m => ?_, fun m => ?_⟩ <;>
    simp [driveCompletion, on_job_complete, h, waitResultOfOutcome,
      process_file_task, maybeNotify_jobs, save_jobs_metadata, dictGet_dictSet_same]

theorem c8_outcome_classification_witness :
    dictGet (create_job initialState "u" "o" "a" none 0).1.jobs "a" =
        some (freshJob "u" "o" "a" none 0) ∧
      dictGet (driveCompletion (create_job initialState "u" "o" "a" none 0).1 "a" 300
          (FutureBehavior.resolves (process_file_task (TaskOutcome.memError "malloc failed")))).jobs "a" =
        some { freshJob "u" "o" "a" none 0 with
                 status := JobStatus.failed, error := some oomMessage } :=
  ⟨by decide,
   (c8_outcome_classification (create_job initialState "u" "o" "a" none 0).1 "a" 300
      (freshJob "u" "o" "a" none 0) (by decide)).2.1 "malloc failed"⟩

/-- C1 (code bug in the source): `submit_processing` registers
`_on_job_complete` via `future.add_done_callback`, which only runs once
the future resolves; inside that callback `future.result(timeout=...)`
returns immediately, so the `FuturesTimeoutError` branch is unreachable.
A transformation that never returns therefore leaves the job `PROCESSING`
forever with no error — the deadline is never enforced — although the dead
branch would have written exactly the claimed message. -/
theorem c1_timeout_never_enforced :
    ∃ s1 : ManagerState,
      submit_processing (create_job initialState "u" "o" "a" none 0).1 "a"
          DispatchResult.ok = Except.ok s1 ∧
      driveCompletion s1 "a" 300 FutureBehavior.neverResolves = s1 ∧
      (∃ j, dictGet s1.jobs "a" = some j ∧
        j.status = JobStatus.processing ∧ j.error = none) ∧
      (∃ j', dictGet (on_job_complete s1 "a" 300 WaitResult.timedOut).jobs "a" = some j' ∧
        j'.error = some "Job timed out after 300 seconds") := by
  refine ⟨_, rfl, rfl, ?_, ?_⟩
  · exact ⟨{ freshJob "u" "o" "a" none 0 with status := JobStatus.processing },
      by decide, by decide, by decide⟩
  · refine ⟨{ freshJob "u" "o" "a" none 0 with
        status := JobStatus.failed
        error := some "Job timed out after 300 seconds" }, ?_, ?_⟩ <;> decide

/-- C2 (counterexample): after a dispatch failure the in-memory job is
`FAILED`, but the snapshot written during the call still records it as
`PROCESSING` — the claim that the metadata snapshot is persisted (i.e.
reflects the `FAILED` state) is false: the `except` block of
`submit_processing` sets status and error without calling
`_save_jobs_metadata`. -/
theorem c2_counterexample :
    ∃ s2 : ManagerState,
      submit_processing (create_job initialState "u" "o" "a" none 0).1 "a"
          (DispatchResult.raises "pool is shut down") = Except.ok s2 ∧
      (∃ j, dictGet s2.jobs "a" = some j ∧ j.status = JobStatus.failed) ∧
      (∃ jd, dictGet s2.disk "a" = some jd ∧ jd.status = JobStatus.processing) ∧
      s2.disk ≠ s2.jobs := by
  refine ⟨_, rfl, ⟨_, rfl, rfl⟩, ⟨_, rfl, rfl⟩, by decide⟩

/-- C2 (amended): on a dispatch failure `submit_processing` moves the
existing job to `FAILED` in memory with a non-empty descriptive error and
never leaves it in `PROCESSING`; the snapshot persisted during the call,
however, is the intermediate `PROCESSING` state — the `FAILED` state is
not re-persisted after the dispatch failure. -/
theorem c2_submit_dispatch_failure (s : ManagerState) (job_id msg : String)
    (j : Job) (h : dictGet s.jobs job_id = some j) :
    ∃ s' : ManagerState,
      submit_processing s job_id (DispatchResult.raises msg) = Except.ok s' ∧
      dictGet s'.jobs job_id = some { j with
        status := JobStatus.failed
        error := some ("Failed to submit job: " ++ msg) } ∧
      ("Failed to submit job: " ++ msg) ≠ "" ∧
      s'.saves = s.saves + 1 ∧
      dictGet s'.disk job_id = some { j with status := JobStatus.processing } := by
  simp only [submit_processing, h]
  refine ⟨_, rfl, ?_, ?_, ?_, ?_⟩
  · simp [save_jobs_metadata, dictSet_dictSet_same, dictGet_dictSet_same]
  · intro hc
    have hlen := congrArg String.length hc
    rw [String.length_append] at hlen
    have h22 : ("Failed to submit job: " : String).length = 22 := rfl
    have h0 : ("" : String).length = 0 := rfl
    rw [h22, h0] at hlen
    omega
  · simp [save_jobs_metadata]
  · simp [save_jobs_metadata, dictGet_dictSet_same]

theorem c2_submit_dispatch_failure_witness :
    dictGet (create_job initialState "u" "o" "a" none 0).1.jobs "a" =
        some (freshJob "u" "o" "a" none 0) ∧
      (∃ s' : ManagerState,
        submit_processing (create_job initialState "u" "o" "a" none 0).1 "a"
            (DispatchResult.raises "pool is shut down") = Except.ok s' ∧
        dictGet s'.jobs "a" = some { freshJob "u" "o" "a" none 0 with
          status := JobStatus.failed
          error := some ("Failed to submit job: " ++ "pool is shut down") } ∧
        ("Failed to submit job: " ++ "pool is shut down") ≠ "" ∧
        s'.saves = (create_job initialState "u" "o" "a" none 0).1.saves + 1 ∧
        dictGet s'.disk "a" =
          some { freshJob "u" "o" "a" none 0 with status := JobStatus.processing }) :=
  ⟨by decide,
   c2_submit_dispatch_failure (create_job initialState "u" "o" "a" none 0).1 "a"
     "pool is shut down" (freshJob "u" "o" "a" none 0) (by decide)⟩

/-- C5 (counterexample): `_save_jobs_metadata` opens the snapshot with
mode 'w', which truncates it before writing.  A failure after the truncate
step (one step into the write) leaves the snapshot empty: the previous
last-good snapshot is lost and the new one is incomplete — there is no
write-then-rename. -/
theorem c5_counterexample :
    save_metadata_disk ['A'] ['B', 'C'] 1 = [] ∧
    save_metadata_disk ['A'] ['B', 'C'] 1 ≠ ['A'] ∧
    save_metadata_disk ['A'] ['B', 'C'] 1 ≠ ['B', 'C'] := by
  decide

/-- C5 (amended): `_save_jobs_metadata` overwrites the snapshot file in
place: a completed write leaves exactly the full serialized table, but the
write is truncate-then-append rather than write-then-rename, so a failure
partway can lose the last-good copy (see the counterexample).  A
write-then-rename save — modelled from the spec's words as
`save_metadata_atomic` — would leave either the old or the new snapshot at
every failure point. -/
theorem c5_save_overwrites_in_place :
    (∀ old data : List Char,
      save_metadata_disk old data (data.length + 1) = data) ∧
    (∀ (old data : List Char) (k : Nat),
      save_metadata_atomic old data k = old ∨
        save_metadata_atomic old data k = data) := by
  constructor
  · intro old data
    unfold save_metadata_disk runWriteSteps
    rw [show data.length + 1 = (writeTruncateSteps data).length by
      simp [writeTruncateSteps]]
    rw [List.take_length]
    simp [writeTruncateSteps, runWriteSteps_appends]
  · intro old data k
    unfold save_metadata_atomic atomicWriteSteps
    by_cases hk : k ≤ data.length
    · left
      rw [List.take_append_of_le_length (by simpa using hk)]
      rw [← List.map_take, foldl_tmpWrites]
    · right
      rw [List.take_of_length_le (by simp; omega)]
      rw [List.foldl_append, foldl_tmpWrites]
      simp

/-- C6 (counterexample): a snapshot whose record list is corrupt after its
first record is not treated as an empty table: the loop in
`_load_jobs_metadata` has already inserted the first record into
`self.jobs` when the reconstruction of the second raises, and the
`except` block keeps it. -/
theorem c6_counterexample :
    load_jobs_metadata
        (SnapshotFile.records [some (freshJob "u" "o" "a" none 0), none]) =
      [("a", freshJob "u" "o" "a" none 0)] ∧
    ([("a", freshJob "u" "o" "a" none 0)] : Table) ≠ [] := by
  constructor
  · rfl
  · decide

/-- C6 (amended): `_load_jobs_metadata` is total (never raises): an absent
snapshot and a snapshot whose JSON parse fails both yield an empty table,
while a record list corrupt at position `k` yields exactly the records
before position `k` — a partial, not empty, table. -/
theorem c6_load_never_raises :
    load_jobs_metadata SnapshotFile.absent = [] ∧
    load_jobs_metadata SnapshotFile.unparseable = [] ∧
    (∀ (good : List Job) (rest : List (Option Job)),
      load_jobs_metadata (SnapshotFile.records (good.map some ++ none :: rest)) =
        good.foldl (fun acc j => dictSet acc j.id j) []) ∧
    (∀ good : List Job,
      load_jobs_metadata (SnapshotFile.records (good.map some)) =
        good.foldl (fun acc j => dictSet acc j.id j) []) := by
  refine ⟨rfl, rfl, fun good rest => ?_, fun good => ?_⟩
  · rw [load_jobs_metadata, loadLoop_map_some]
    rfl
  · rw [load_jobs_metadata, show good.map some = good.map some ++ [] by simp,
      loadLoop_map_some]
    rfl

/-- C7 (counterexample): first, a sweep with retention window 0 at the
instant a job was created does not remove it — the age test is strict
(`created_at < now - 0`), so "removes all jobs" fails at the boundary;
second, a sweep whose window exceeds every job's age removes nothing and
performs NO persist at all (`_save_jobs_metadata` is only called when
something was removed), refuting "the snapshot is persisted once at the
end of the sweep". -/
theorem c7_counterexample :
    (cleanup_old_jobs
        { jobs := [("a", freshJob "u" "o" "a" none 10)]
          disk := []
          saves := 0
          files := ["u/a.ifc"]
          notifications := 0 } 10 0).jobs =
      [("a", freshJob "u" "o" "a" none 10)] ∧
    (cleanup_old_jobs
        { jobs := [("a", freshJob "u" "o" "a" none 10)]
          disk := []
          saves := 0
          files := ["u/a.ifc"]
          notifications := 0 } 20 100).saves = 0 := by
  decide

/-- C7 (amended): a sweep with retention window 0 removes every job
created strictly before the sweep's clock reading and, when at least one
job exists (hence is removed), persists the snapshot exactly once; a file
survives a sweep iff it existed and is not the input or output path of any
removed job; a sweep whose window strictly exceeds every job's age leaves
the whole state unchanged — in particular it removes nothing and performs
no persist. -/
theorem c7_sweep (s : ManagerState) (now maxAge : Int) :
    ((∀ p ∈ s.jobs, p.2.created_at < now) →
      (cleanup_old_jobs s now 0).jobs = []) ∧
    ((∀ p ∈ s.jobs, p.2.created_at < now) → s.jobs ≠ [] →
      (cleanup_old_jobs s now 0).saves = s.saves + 1) ∧
    (∀ f, f ∈ (cleanup_old_jobs s now maxAge).files ↔
      (f ∈ s.files ∧ ∀ p ∈ s.jobs, p.2.created_at < now - maxAge →
        p.2.input_path ≠ f ∧ p.2.output_path ≠ f)) ∧
    ((∀ p ∈ s.jobs, now - p.2.created_at < maxAge) →
      cleanup_old_jobs s now maxAge = s) := by
  refine ⟨?_, ?_, ?_, ?_⟩
  · intro hall
    rw [cleanup_jobs_eq]
    refine List.filter_eq_nil_iff.mpr ?_
    intro p hp
    have := hall p hp
    simp
    omega
  · intro hall hne
    rw [cleanup_saves_eq]
    rw [if_neg]
    intro hc
    rw [List.isEmpty_iff, List.map_eq_nil_iff] at hc
    have hself : s.jobs.filter (fun p => decide (p.2.created_at < now - 0)) = s.jobs := by
      refine List.filter_eq_self.mpr ?_
      intro p hp
      have := hall p hp
      simp
      omega
    rw [hself] at hc
    exact hne hc
  · intro f
    rw [cleanup_files_eq]
    simp only [List.mem_filter, Bool.not_eq_true', List.any_eq_false,
      Bool.and_eq_true, decide_eq_true_eq, Bool.or_eq_true, beq_iff_eq,
      not_and, not_or]
  · intro hall
    have hth : ∀ p ∈ s.jobs, ¬(p.2.created_at < now - maxAge) := by
      intro p hp
      have := hall p hp
      omega
    have h1 : s.jobs.filter (fun p => decide (p.2.created_at < now - maxAge)) = [] := by
      refine List.filter_eq_nil_iff.mpr ?_
      intro p hp
      simpa using hth p hp
    have h2 : s.jobs.filter (fun p => !decide (p.2.created_at < now - maxAge)) = s.jobs := by
      refine List.filter_eq_self.mpr ?_
      intro p hp
      simpa using hth p hp
    have h3 : s.files.filter (fun f => !(s.jobs.any (fun p =>
        decide (p.2.created_at < now - maxAge) &&
          (p.2.input_path == f || p.2.output_path == f)))) = s.files := by
      refine List.filter_eq_self.mpr ?_
      intro f hf
      rw [Bool.not_eq_true', List.any_eq_false]
      intro p hp
      simp [hth p hp]
    simp only [cleanup_old_jobs, h1, h2, h3, List.map_nil, List.isEmpty_nil,
      if_true]

theorem c7_sweep_witness :
    (∀ p ∈ ({ jobs := [("a", freshJob "u" "o" "a" none 5)]
              disk := []
              saves := 0
              files := []
              notifications := 0 } : ManagerState).jobs, p.2.created_at < 10) ∧
    (cleanup_old_jobs
        { jobs := [("a", freshJob "u" "o" "a" none 5)]
          disk := []
          saves := 0
          files := []
          notifications := 0 } 10 0).jobs = [] ∧
    (∀ p ∈ ({ jobs := [("b", freshJob "u" "o" "b" none 15)]
              disk := []
              saves := 0
              files := []
              notifications := 0 } : ManagerState).jobs, (20 : Int) - p.2.created_at < 100) ∧
    cleanup_old_jobs
        { jobs := [("b", freshJob "u" "o" "b" none 15)]
          disk := []
          saves := 0
          files := []
          notifications := 0 } 20 100 =
      { jobs := [("b", freshJob "u" "o" "b" none 15)]
        disk := []
        saves := 0
        files := []
        notifications := 0 } :=
  ⟨by decide,
   (c7_sweep
     { jobs := [("a", freshJob "u" "o" "a" none 5)]
       disk := []
       saves := 0
       files := []
       notifications := 0 } 10 0).1 (by decide),
   by decide,
   (c7_sweep
     { jobs := [("b", freshJob "u" "o" "b" none 15)]
       disk := []
       saves := 0
       files := []
       notifications := 0 } 20 100).2.2.2 (by decide)⟩

/-- C4 (counterexample): a transformation raising an exception whose
message is empty (`str(e) = ""`) drives the job to `FAILED` with
`error = ""`: the error is non-null but empty while the status is
`FAILED`, so "error is non-null and non-empty iff status is FAILED" does
not hold after the trace create → submit → completion hook. -/
theorem c4_counterexample :
    ∃ j, dictGet (applyTrace initialState
        [Op.create "a" none 0,
         Op.submit "a" DispatchResult.ok,
         Op.complete "a" 300
           (FutureBehavior.resolves (process_file_task (TaskOutcome.raisesOther "")))]).jobs
        "a" = some j ∧
      j.status = JobStatus.failed ∧ j.error = some "" := by
  refine ⟨_, rfl, rfl, rfl⟩

/-- C4 (amended): over every trace of operations from an empty manager in
which `submit_processing` targets only `PENDING` jobs and a completion
hook only fires for a job it finds `PROCESSING` (or already removed) —
the discipline the HTTP layer establishes — every record's `error` is
non-null exactly when its status is `FAILED`.  (The error string itself
may be empty when the raised exception's message is empty.) -/
theorem c4_error_iff_failed (ops : List Op)
    (hok : okTrace initialState ops = true) :
    errOk (applyTrace initialState ops).jobs := by
  refine errOk_trace ?_ ops hok
  intro p hp
  simp [initialState] at hp

theorem c4_error_iff_failed_witness :
    okTrace initialState
        [Op.create "a" none 0,
         Op.submit "a" DispatchResult.ok,
         Op.complete "a" 300
           (FutureBehavior.resolves (process_file_task (TaskOutcome.raisesOther "boom"))),
         Op.sweep 100 0] = true ∧
      errOk (applyTrace initialState
        [Op.create "a" none 0,
         Op.submit "a" DispatchResult.ok,
         Op.complete "a" 300
           (FutureBehavior.resolves (process_file_task (TaskOutcome.raisesOther "boom"))),
         Op.sweep 100 0]).jobs :=
  ⟨by decide,
   c4_error_iff_failed
     [Op.create "a" none 0,
      Op.submit "a" DispatchResult.ok,
      Op.complete "a" 300
        (FutureBehavior.resolves (process_file_task (TaskOutcome.raisesOther "boom"))),
      Op.sweep 100 0] (by decide)⟩

/-- C3 (counterexample): `submit_processing` does not require `PENDING`:
called on a job already `COMPLETED` it succeeds (no exception) and moves
the job back to `PROCESSING`, leaving a terminal state — refuting both
"requires the job to be in PENDING" and "no operation moves a job out of
a terminal state". -/
theorem c3_counterexample :
    ∃ (s4 : ManagerState) (jc jp : Job),
      dictGet (applyTrace initialState
        [Op.create "a" none 0, Op.submit "a" DispatchResult.ok,
         Op.complete "a" 300
           (FutureBehavior.resolves (process_file_task TaskOutcome.ok))]).jobs "a" =
        some jc ∧
      jc.status = JobStatus.completed ∧
      submit_processing (applyTrace initialState
        [Op.create "a" none 0, Op.submit "a" DispatchResult.ok,
         Op.complete "a" 300
           (FutureBehavior.resolves (process_file_task TaskOutcome.ok))]) "a"
          DispatchResult.ok = Except.ok s4 ∧
      dictGet s4.jobs "a" = some jp ∧
      jp.status = JobStatus.processing := by
  refine ⟨_, _, _, rfl, rfl, rfl, rfl, rfl⟩

/-- C3 (amended): under the discipline the HTTP layer establishes
(`create` allocates fresh ids, `submit_processing` targets `PENDING`
jobs, a completion hook fires only for a job it finds `PROCESSING` or
already removed), every operation changes each surviving job's status
only along the monotone chain `PENDING → PROCESSING → {COMPLETED |
FAILED}`; in particular no such operation moves a job out of a terminal
state.  (Without the discipline, `submit_processing` itself only checks
existence — see the counterexample.) -/
theorem c3_monotone_transitions (s : ManagerState) (op : Op) (job_id : String)
    (j j' : Job) (hnd : keysNodup s.jobs) (hop : okOp s op = true)
    (hbefore : dictGet s.jobs job_id = some j)
    (hafter : dictGet (applyOp s op).jobs job_id = some j') :
    monotoneReach j.status j'.status = true ∧
    ((j.status = JobStatus.completed ∨ j.status = JobStatus.failed) →
      j'.status = j.status) := by
  have main : monotoneReach j.status j'.status = true := by
    cases op with
    | create id2 cb now =>
        simp only [okOp, Option.isNone_iff_eq_none] at hop
        have hne : id2 ≠ job_id := by
          intro hcontra
          subst hcontra
          rw [hop] at hbefore
          exact Option.noConfusion hbefore
        simp only [applyOp, create_job, save_jobs_metadata] at hafter
        rw [dictGet_dictSet_ne _ _ hne, hbefore] at hafter
        have hj := Option.some.inj hafter
        subst hj
        exact monotoneReach_refl _
    | submit id2 d =>
        simp only [okOp] at hop
        rcases hget : dictGet s.jobs id2 with _ | jd
        · rw [hget] at hop
          exact absurd hop (by simp)
        · rw [hget] at hop
          have hpend : jd.status = JobStatus.pending := by simpa using hop
          by_cases he : id2 = job_id
          · subst he
            rw [hget] at hbefore
            have hj : jd = j := Option.some.inj hbefore
            subst hj
            cases d with
            | ok =>
                simp only [applyOp, submit_processing, hget,
                  save_jobs_metadata] at hafter
                rw [dictGet_dictSet_same] at hafter
                have hj' := Option.some.inj hafter
                rw [← hj', hpend]
                simp [monotoneReach]
            | raises msg =>
                simp only [applyOp, submit_processing, hget,
                  save_jobs_metadata] at hafter
                rw [dictSet_dictSet_same, dictGet_dictSet_same] at hafter
                have hj' := Option.some.inj hafter
                rw [← hj', hpend]
                simp [monotoneReach]
          · cases d with
            | ok =>
                simp only [applyOp, submit_processing, hget,
                  save_jobs_metadata] at hafter
                rw [dictGet_dictSet_ne _ _ he, hbefore] at hafter
                have hj := Option.some.inj hafter
                subst hj
                exact monotoneReach_refl _
            | raises msg =>
                simp only [applyOp, submit_processing, hget,
                  save_jobs_metadata] at hafter
                rw [dictSet_dictSet_same, dictGet_dictSet_ne _ _ he,
                  hbefore] at hafter
                have hj := Option.some.inj hafter
                subst hj
                exact monotoneReach_refl _
    | complete id2 tmo fb =>
        cases fb with
        | neverResolves =>
            simp only [applyOp, driveCompletion] at hafter
            rw [hbefore] at hafter
            have hj := Option.some.inj hafter
            subst hj
            exact monotoneReach_refl _
        | resolves o =>
            rcases hget : dictGet s.jobs id2 with _ | jd
            · simp only [applyOp, driveCompletion, on_job_complete, hget] at hafter
              rw [hbefore] at hafter
              have hj := Option.some.inj hafter
              subst hj
              exact monotoneReach_refl _
            · simp only [okOp, hget] at hop
              have hproc : jd.status = JobStatus.processing := by simpa using hop
              by_cases he : id2 = job_id
              · subst he
                rw [hget] at hbefore
                have hj : jd = j := Option.some.inj hbefore
                subst hj
                cases o with
                | ok =>
                    simp only [applyOp, driveCompletion, waitResultOfOutcome,
                      on_job_complete, hget, maybeNotify_jobs,
                      save_jobs_metadata] at hafter
                    rw [dictGet_dictSet_same] at hafter
                    have hj' := Option.some.inj hafter
                    rw [← hj', hproc]
                    simp [monotoneReach]
                | memError m =>
                    simp only [applyOp, driveCompletion, waitResultOfOutcome,
                      on_job_complete, hget, maybeNotify_jobs,
                      save_jobs_metadata] at hafter
                    rw [dictGet_dictSet_same] at hafter
                    have hj' := Option.some.inj hafter
                    rw [← hj', hproc]
                    simp [monotoneReach]
                | raisesOther m =>
                    simp only [applyOp, driveCompletion, waitResultOfOutcome,
                      on_job_complete, hget, maybeNotify_jobs,
                      save_jobs_metadata] at hafter
                    rw [dictGet_dictSet_same] at hafter
                    have hj' := Option.some.inj hafter
                    rw [← hj', hproc]
                    simp [monotoneReach]
              · simp only [applyOp, driveCompletion, on_job_complete, hget,
                  maybeNotify_jobs, save_jobs_metadata] at hafter
                rw [dictGet_dictSet_ne _ _ he, hbefore] at hafter
                have hj := Option.some.inj hafter
                subst hj
                exact monotoneReach_refl _
    | sweep now maxAge =>
        rw [show (applyOp s (Op.sweep now maxAge)).jobs =
            (cleanup_old_jobs s now maxAge).jobs from rfl,
          cleanup_jobs_eq] at hafter
        have hin := dictGet_filter _ hnd hafter
        rw [hbefore] at hin
        have hj := Option.some.inj hin
        subst hj
        exact monotoneReach_refl _
  exact ⟨main, fun ht => monotoneReach_terminal main ht⟩

theorem c3_monotone_transitions_witness :
    keysNodup (create_job initialState "u" "o" "a" none 0).1.jobs ∧
    okOp (create_job initialState "u" "o" "a" none 0).1
        (Op.submit "a" DispatchResult.ok) = true ∧
    dictGet (create_job initialState "u" "o" "a" none 0).1.jobs "a" =
      some (freshJob "u" "o" "a" none 0) ∧
    dictGet (applyOp (create_job initialState "u" "o" "a" none 0).1
        (Op.submit "a" DispatchResult.ok)).jobs "a" =
      some { freshJob "u" "o" "a" none 0 with status := JobStatus.processing } ∧
    (monotoneReach (freshJob "u" "o" "a" none 0).status
        ({ freshJob "u" "o" "a" none 0 with
            status := JobStatus.processing }).status = true ∧
      (((freshJob "u" "o" "a" none 0).status = JobStatus.completed ∨
          (freshJob "u" "o" "a" none 0).status = JobStatus.failed) →
        ({ freshJob "u" "o" "a" none 0 with
            status := JobStatus.processing }).status =
          (freshJob "u" "o" "a" none 0).status)) :=
  ⟨by unfold keysNodup; decide, by decide, by decide, by decide,
   c3_monotone_transitions (create_job initialState "u" "o" "a" none 0).1
     (Op.submit "a" DispatchResult.ok) "a" (freshJob "u" "o" "a" none 0)
     { freshJob "u" "o" "a" none 0 with status := JobStatus.processing }
     (by unfold keysNodup; decide) (by decide) (by decide) (by decide)⟩

/-- C9 (counterexample): the source guards `self.jobs` with no lock, so
the read-then-write sequence of `submit_processing` (the `jobs.get` at
line 105, the status write at line 109) is not serialized against other
jobs' operations: here is a valid execution — an interleaving of two
concurrent submissions' atomic steps — in which job b's dict insert, read
and `PROCESSING` write all occur strictly between job a's submission read
(position 1) and job a's `PROCESSING` write (position 5). -/
theorem c9_counterexample :
    Interleave (lifecycleOk "u" "o" "a" none 0) (lifecycleOk "u" "o" "b" none 0)
      badInterleaving ∧
    badInterleaving[1]? = some { key := "a", kind := StepKind.readJob } ∧
    badInterleaving[4]? =
      some { key := "b", kind := StepKind.writeStatus JobStatus.processing } ∧
    badInterleaving[5]? =
      some { key := "a", kind := StepKind.writeStatus JobStatus.processing } := by
  refine ⟨?_, rfl, rfl, rfl⟩
  exact Interleave.left (Interleave.left (Interleave.right (Interleave.right
    (Interleave.right (Interleave.left (Interleave.left (Interleave.left
      (Interleave.right (Interleave.right Interleave.nil)))))))))

/-- C9 (amended): although the source holds no table-wide lock and the
critical sections of concurrent submissions can interleave (see the
counterexample), every atomic step touches only its own job's record, so
for two distinct job ids EVERY interleaving of the two jobs' lifecycles
(one completing, one failing) leaves both records present and equal to
their isolated sequential values — no cross-contamination of `error` or
`output_path` between the two records. -/
theorem c9_no_cross_contamination (ud od a b : String)
    (cb1 cb2 : Option String) (n1 n2 : Int) (msg : String)
    (zs : List TStep) (hab : a ≠ b)
    (hi : Interleave (lifecycleOk ud od a cb1 n1)
      (lifecycleFail ud od b cb2 n2 msg) zs) :
    dictGet (runSteps zs []) a =
      some { freshJob ud od a cb1 n1 with status := JobStatus.completed } ∧
    dictGet (runSteps zs []) b =
      some { freshJob ud od b cb2 n2 with
               status := JobStatus.failed
               error := some msg } := by
  have hxs : ∀ st ∈ lifecycleOk ud od a cb1 n1, st.key = a := by
    intro st hst
    simp [lifecycleOk] at hst
    rcases hst with h | h | h | h | h <;> subst h <;> rfl
  have hys : ∀ st ∈ lifecycleFail ud od b cb2 n2 msg, st.key = b := by
    intro st hst
    simp [lifecycleFail] at hst
    rcases hst with h | h | h | h | h | h <;> subst h <;> rfl
  have hequiv := interleave_run hi hxs hys (Ne.symm hab) []
  constructor
  · rw [hequiv a, runSteps_lifecycleFail, runSteps_lifecycleOk,
      dictGet_dictSet_ne _ _ (Ne.symm hab), dictGet_dictSet_same]
  · rw [hequiv b, runSteps_lifecycleFail, dictGet_dictSet_same]

theorem c9_no_cross_contamination_witness :
    ("a" : String) ≠ "b" ∧
    Interleave (lifecycleOk "u" "o" "a" none 0)
      (lifecycleFail "u" "o" "b" none 0 "boom")
      (lifecycleOk "u" "o" "a" none 0 ++ lifecycleFail "u" "o" "b" none 0 "boom") ∧
    (dictGet (runSteps
        (lifecycleOk "u" "o" "a" none 0 ++ lifecycleFail "u" "o" "b" none 0 "boom")
        []) "a" =
      some { freshJob "u" "o" "a" none 0 with status := JobStatus.completed } ∧
    dictGet (runSteps
        (lifecycleOk "u" "o" "a" none 0 ++ lifecycleFail "u" "o" "b" none 0 "boom")
        []) "b" =
      some { freshJob "u" "o" "b" none 0 with
               status := JobStatus.failed
               error := some "boom" }) :=
  ⟨by decide, interleave_append _ _,
   c9_no_cross_contamination "u" "o" "a" "b" none none 0 0 "boom"
     (lifecycleOk "u" "o" "a" none 0 ++ lifecycleFail "u" "o" "b" none 0 "boom")
     (by decide) (interleave_append _ _)⟩
